import Mathlib

/-!
Verification development for the jellyfin_pr_migration tool (src/main.rs).

The development shallowly embeds the record-migration pipeline:
identity resolution (create_user_id_map), the streaming TSV rewrite loop
(process_tsv_file), the SQLite duplicate-check-and-insert adapter
(check_and_insert_record_into_db) with its transaction discipline, the
tab-separated codec realised by the csv crate with the builder settings
used in main.rs, and the fetch-error absorption in main.

Modelling conventions:
* A Rust HashMap built by a sequence of inserts is modelled as the list of
  inserts in order; lookup returns the value of the last insert for a key
  (HashMap::insert overwrites), realised by searching the reversed list.
* The SQLite table is a list of committed rows plus, during a run, a list
  of rows inserted by the open transaction (dbPending).  The same
  connection sees its own uncommitted rows, so the existence check runs
  against committed ++ pending.  Only COMMIT publishes pending rows;
  every aborting path (explicit ROLLBACK or dropping the connection on an
  early return) leaves the committed table unchanged, which is exactly
  SQLite's behaviour for an uncommitted transaction.
* Fallible external effects (TSV serialize, the SQLite check/insert,
  flush, COMMIT, ROLLBACK) are driven by an Oracle saying which calls
  fail; the per-record effects are indexed by the 0-based position of the
  record in the input.
-/

namespace JellyfinMigration

/-- A Jellyfin user identity: (id, display name), as deserialised from the
Users endpoint in main.rs. -/
structure JellyfinUser where
  id : String
  name : String
deriving Repr, DecidableEq

/-- The nine-field activity record of the TSV schema in main.rs. -/
structure TsvRecord where
  date_created : String
  user_id : String
  item_id : String
  item_type : String
  item_name : String
  playback_method : String
  client_name : String
  device_name : String
  play_duration : String
deriving Repr, DecidableEq

/-- Model of a Rust HashMap String -> String as the ordered list of inserts;
lookup takes the value of the last insert for the key, matching
HashMap::insert overwrite semantics. -/
def hmLookup (m : List (String × String)) (k : String) : Option String :=
  (m.reverse.find? (fun p => p.1 == k)).map (fun p => p.2)

/-- The name -> id lookup over the new-instance users built in
create_user_id_map (main.rs lines 156-157): each new user is inserted in
list order, so later entries overwrite earlier ones. -/
def new_users_by_name_to_id (new_users : List JellyfinUser) : List (String × String) :=
  new_users.map (fun u => (u.name, u.id))

/-- create_user_id_map (main.rs lines 150-180): for each old user in list
order, if its name is found in the new-side lookup, insert
old.id -> found new id into the result map. -/
def create_user_id_map (old_users new_users : List JellyfinUser) :
    List (String × String) :=
  old_users.foldl
    (fun m o =>
      match hmLookup (new_users_by_name_to_id new_users) o.name with
      | some newId => m ++ [(o.id, newId)]
      | none => m)
    []

/-- The SELECT EXISTS check of check_and_insert_record_into_db: a row
matching all nine fields exactly is present. -/
def recordExists (rows : List TsvRecord) (r : TsvRecord) : Bool :=
  decide (r ∈ rows)

/-- check_and_insert_record_into_db (main.rs lines 182-241): returns
(true, rows with r appended) if the record was absent and inserted,
(false, rows) if an exact duplicate was already present. -/
def check_and_insert_record_into_db (rows : List TsvRecord) (r : TsvRecord) :
    Bool × List TsvRecord :=
  if recordExists rows r then (false, rows) else (true, rows ++ [r])

/-- The in-place user-id rewrite of the streaming loop (main.rs lines
331-341): replace user_id by its mapped value when present in the map. -/
def rewriteRecord (map : List (String × String)) (r : TsvRecord) : TsvRecord :=
  match hmLookup map r.user_id with
  | some newId => { r with user_id := newId }
  | none => r

/-- changes_summary update (main.rs lines 336-340): entry(old_id)
.or_insert((new_id, 0)) then count += 1.  Keys are unique by construction
(an entry is appended only when absent). -/
def summaryBump (s : List (String × String × Nat)) (oldId newId : String) :
    List (String × String × Nat) :=
  if s.any (fun e => e.1 == oldId) then
    s.map (fun e => if e.1 == oldId then (e.1, (e.2.1, e.2.2 + 1)) else e)
  else
    s ++ [(oldId, (newId, 1))]

/-- Which sinks are configured: output_tsv_file_path and sqlite_db_path
being Some in the Config of main.rs. -/
structure SinkConfig where
  tsvSink : Bool
  dbSink : Bool
deriving Repr, DecidableEq

/-- Failure schedule for the fallible external calls of one run.
tsvFail i: the TSV serialize of the record at 0-based position i fails.
dbFail i: the SQLite check/insert for position i fails.
flushFail, commitFail, rollbackFail: the corresponding one-shot calls
fail.  A rollback failure is only logged by main.rs, never returned. -/
structure Oracle where
  tsvFail : Nat → Bool
  dbFail : Nat → Bool
  flushFail : Bool
  commitFail : Bool
  rollbackFail : Bool

/-- The all-successful failure schedule. -/
def noFailOracle : Oracle :=
  { tsvFail := fun _ => false
    dbFail := fun _ => false
    flushFail := false
    commitFail := false
    rollbackFail := false }

/-- The errors that abort a run of process_tsv_file, tagged with the
position of the offending record where applicable. -/
inductive RunError where
  | tsvWriteError (idx : Nat)
  | dbError (idx : Nat)
  | flushError
  | commitError
deriving Repr, DecidableEq

/-- The mutable state threaded through the streaming loop of
process_tsv_file: the four counters, changes_summary, the records handed
to the TSV writer, and the rows inserted by the open SQLite transaction. -/
structure RunState where
  processed : Nat
  rewritten : Nat
  insertedSqlite : Nat
  skippedSqlite : Nat
  changesSummary : List (String × String × Nat)
  tsvOut : List TsvRecord
  dbPending : List TsvRecord
deriving Repr, DecidableEq

/-- Counters and summaries all start at zero (main.rs lines 288-289,
320-323). -/
def initState : RunState :=
  { processed := 0
    rewritten := 0
    insertedSqlite := 0
    skippedSqlite := 0
    changesSummary := []
    tsvOut := []
    dbPending := [] }

/-- The successful-path effect of one loop iteration (main.rs lines
325-372): count, rewrite, hand to the TSV writer if configured, then
check-and-insert into SQLite if configured. -/
def stepPure (cfg : SinkConfig) (map : List (String × String))
    (table : List TsvRecord) (st : RunState) (r0 : TsvRecord) : RunState :=
  let r := rewriteRecord map r0
  let st1 := { st with processed := st.processed + 1 }
  let st2 :=
    match hmLookup map r0.user_id with
    | some newId =>
        { st1 with
          rewritten := st1.rewritten + 1
          changesSummary := summaryBump st1.changesSummary r0.user_id newId }
    | none => st1
  let st3 :=
    if cfg.tsvSink then { st2 with tsvOut := st2.tsvOut ++ [r] } else st2
  if cfg.dbSink then
    match check_and_insert_record_into_db (table ++ st3.dbPending) r with
    | (true, _) =>
        { st3 with
          insertedSqlite := st3.insertedSqlite + 1
          dbPending := st3.dbPending ++ [r] }
    | (false, _) =>
        { st3 with skippedSqlite := st3.skippedSqlite + 1 }
  else st3

/-- One iteration of the streaming loop with its failure points, in source
order: the serialize call can fail only when the TSV sink is configured,
and the check/insert only when the SQLite sink is configured; the TSV
write precedes the SQLite write (main.rs lines 344-372). -/
def processOneRecord (cfg : SinkConfig) (map : List (String × String))
    (orc : Oracle) (table : List TsvRecord) (st : RunState) (r0 : TsvRecord) :
    Except RunError RunState :=
  let idx := st.processed
  let r := rewriteRecord map r0
  let st1 := { st with processed := st.processed + 1 }
  let st2 :=
    match hmLookup map r0.user_id with
    | some newId =>
        { st1 with
          rewritten := st1.rewritten + 1
          changesSummary := summaryBump st1.changesSummary r0.user_id newId }
    | none => st1
  match (if cfg.tsvSink then
           (if orc.tsvFail idx then Except.error (RunError.tsvWriteError idx)
            else Except.ok { st2 with tsvOut := st2.tsvOut ++ [r] })
         else Except.ok st2) with
  | Except.error e => Except.error e
  | Except.ok st3 =>
    if cfg.dbSink then
      (if orc.dbFail idx then Except.error (RunError.dbError idx)
       else
         match check_and_insert_record_into_db (table ++ st3.dbPending) r with
         | (true, _) =>
             Except.ok
               { st3 with
                 insertedSqlite := st3.insertedSqlite + 1
                 dbPending := st3.dbPending ++ [r] }
         | (false, _) =>
             Except.ok { st3 with skippedSqlite := st3.skippedSqlite + 1 })
    else Except.ok st3

/-- The streaming loop of process_tsv_file: fold processOneRecord over the
input records, aborting on the first error. -/
def runLoop (cfg : SinkConfig) (map : List (String × String)) (orc : Oracle)
    (table : List TsvRecord) : RunState → List TsvRecord →
    Except RunError RunState
  | st, [] => Except.ok st
  | st, r :: rs =>
    match processOneRecord cfg map orc table st r with
    | Except.ok st' => runLoop cfg map orc table st' rs
    | Except.error e => Except.error e

/-- The pure streaming loop on the success path. -/
def loopPure (cfg : SinkConfig) (map : List (String × String))
    (table : List TsvRecord) (st : RunState) (rs : List TsvRecord) : RunState :=
  rs.foldl (stepPure cfg map table) st

deriving instance DecidableEq for Except

/-- Outcome of one whole run of process_tsv_file: the Ok/Err result, the
committed table afterwards, and whether an explicit ROLLBACK was issued.
On the db-error path main.rs issues ROLLBACK before propagating the
original error; on the TSV-write and flush error paths it returns early
and the dropped connection discards the transaction; on commit failure it
attempts ROLLBACK and propagates the commit error. -/
structure RunResult where
  outcome : Except RunError RunState
  finalTable : List TsvRecord
  rollbackAttempted : Bool
deriving Repr, DecidableEq

/-- process_tsv_file (main.rs lines 243-425) over already-decoded records:
run the streaming loop, then flush the TSV writer, then COMMIT the SQLite
transaction.  The committed table gains the pending rows only when COMMIT
succeeds; every error path leaves it unchanged. -/
def process_tsv_file (cfg : SinkConfig) (map : List (String × String))
    (orc : Oracle) (table : List TsvRecord) (records : List TsvRecord) :
    RunResult :=
  match runLoop cfg map orc table initState records with
  | Except.error e =>
      { outcome := Except.error e
        finalTable := table
        rollbackAttempted :=
          match e with
          | RunError.dbError _ => true
          | _ => false }
  | Except.ok st =>
      if cfg.tsvSink && orc.flushFail then
        { outcome := Except.error RunError.flushError
          finalTable := table
          rollbackAttempted := false }
      else if cfg.dbSink && orc.commitFail then
        { outcome := Except.error RunError.commitError
          finalTable := table
          rollbackAttempted := true }
      else
        { outcome := Except.ok st
          finalTable := if cfg.dbSink then table ++ st.dbPending else table
          rollbackAttempted := false }

/-- Sum of the per-old-id rewrite counts held in changes_summary. -/
def sumCounts (s : List (String × String × Nat)) : Nat :=
  (s.map (fun e => e.2.2)).sum

/-- The caller-side absorption of a fetch_users_from_instance outcome
(main.rs lines 475-509): an error leaves the user list empty. -/
def absorbFetch (res : Except String (List JellyfinUser)) : List JellyfinUser :=
  match res with
  | Except.ok users => users
  | Except.error _ => []

/-- Observable outcome of main: whether each fetch raised a warning, and
the run result of process_tsv_file. -/
structure MainResult where
  oldFetchWarning : Bool
  newFetchWarning : Bool
  run : RunResult
deriving Repr, DecidableEq

/-- main (main.rs lines 427-527) after configuration loading: fetch the two
user lists, absorbing failures into empty lists with a warning, build the
id map, and process the TSV file. -/
def mainModel (oldRes newRes : Except String (List JellyfinUser))
    (cfg : SinkConfig) (orc : Oracle) (table : List TsvRecord)
    (records : List TsvRecord) : MainResult :=
  let old_users := absorbFetch oldRes
  let new_users := absorbFetch newRes
  { oldFetchWarning := match oldRes with | Except.error _ => true | _ => false
    newFetchWarning := match newRes with | Except.error _ => true | _ => false
    run := process_tsv_file cfg (create_user_id_map old_users new_users) orc
             table records }

/-! ## The tab-separated codec

main.rs reads with csv::ReaderBuilder delimiter \t, has_headers false
(default quoting with the double-quote character, default terminator
accepting \n, \r and \r\n) and writes with csv::WriterBuilder delimiter
\t (default terminator \n, default QuoteStyle::Necessary: a field is
quoted exactly when it contains the delimiter, a quote, \r or \n, with
inner quotes doubled).  The reader is the csv-core state machine,
modelled below as a fold over the characters of the file; completely
empty lines yield no record. -/

/-- A character that forces the csv writer to quote the field. -/
def specialChar (c : Char) : Bool :=
  c == '\t' || c == '\n' || c == '\r' || c == '"'

/-- Writer side: does this field need quoting (QuoteStyle::Necessary)? -/
def needsQuoting (f : List Char) : Bool :=
  f.any specialChar

/-- Writer side: double every inner quote of a quoted field. -/
def escapeField (f : List Char) : List Char :=
  f.foldr (fun c acc => if c == '"' then '"' :: '"' :: acc else c :: acc) []

/-- Writer side: one serialised field. -/
def encodeField (f : List Char) : List Char :=
  if needsQuoting f then '"' :: (escapeField f ++ ['"']) else f

/-- The nine fields of a record, in schema order, as character lists. -/
def recordFields (r : TsvRecord) : List (List Char) :=
  [r.date_created.toList, r.user_id.toList, r.item_id.toList,
   r.item_type.toList, r.item_name.toList, r.playback_method.toList,
   r.client_name.toList, r.device_name.toList, r.play_duration.toList]

/-- Writer side: join the serialised fields of one record with the tab
delimiter. -/
def joinFields : List (List Char) → List Char
  | [] => []
  | [f] => f
  | f :: fs => f ++ '\t' :: joinFields fs

/-- Writer side: one serialised record: tab-joined fields plus the \n
record terminator the csv writer always emits. -/
def encodeRow (r : TsvRecord) : List Char :=
  joinFields ((recordFields r).map encodeField) ++ ['\n']

/-- Writer side: the whole output file. -/
def encodeFile (rs : List TsvRecord) : List Char :=
  (rs.map encodeRow).flatten

/-- Reader states of the csv-core parsing state machine. -/
inductive CsvMode where
  | startField
  | inUnquoted
  | inQuoted
  | quoteInQuoted
  | afterCR
deriving Repr, DecidableEq

/-- Reader state: current mode, the field and row being accumulated, and
the finished rows. -/
structure CsvState where
  mode : CsvMode
  field : List Char
  row : List (List Char)
  rows : List (List (List Char))
deriving Repr, DecidableEq

/-- Reader transition at the start of a field.  A quote opens a quoted
field; a tab ends an empty field; a terminator ends the row (a row with
no fields at all, i.e. an empty line, is skipped); anything else starts
an unquoted field. -/
def csvStartField (s : CsvState) (c : Char) : CsvState :=
  if c == '"' then { s with mode := CsvMode.inQuoted, field := [] }
  else if c == '\t' then
    { s with mode := CsvMode.startField, field := [], row := s.row ++ [[]] }
  else if c == '\n' then
    (if s.row.isEmpty then { s with mode := CsvMode.startField }
     else { s with mode := CsvMode.startField, field := [], row := [],
                   rows := s.rows ++ [s.row ++ [[]]] })
  else if c == '\r' then
    (if s.row.isEmpty then { s with mode := CsvMode.afterCR }
     else { s with mode := CsvMode.afterCR, field := [], row := [],
                   rows := s.rows ++ [s.row ++ [[]]] })
  else { s with mode := CsvMode.inUnquoted, field := [c] }

/-- One reader transition.  Unquoted fields treat a quote literally;
quoted fields treat the delimiter and terminators literally and use a
doubled quote for a literal quote; after a closing quote, stray
characters continue the field unquoted (the csv crate's default lenient
mode); after \r, a following \n is part of the same terminator. -/
def csvStep (s : CsvState) (c : Char) : CsvState :=
  match s.mode with
  | CsvMode.startField => csvStartField s c
  | CsvMode.inUnquoted =>
    if c == '\t' then
      { s with mode := CsvMode.startField, field := [],
               row := s.row ++ [s.field] }
    else if c == '\n' then
      { s with mode := CsvMode.startField, field := [], row := [],
               rows := s.rows ++ [s.row ++ [s.field]] }
    else if c == '\r' then
      { s with mode := CsvMode.afterCR, field := [], row := [],
               rows := s.rows ++ [s.row ++ [s.field]] }
    else { s with field := s.field ++ [c] }
  | CsvMode.inQuoted =>
    if c == '"' then { s with mode := CsvMode.quoteInQuoted }
    else { s with field := s.field ++ [c] }
  | CsvMode.quoteInQuoted =>
    if c == '"' then { s with mode := CsvMode.inQuoted, field := s.field ++ ['"'] }
    else if c == '\t' then
      { s with mode := CsvMode.startField, field := [],
               row := s.row ++ [s.field] }
    else if c == '\n' then
      { s with mode := CsvMode.startField, field := [], row := [],
               rows := s.rows ++ [s.row ++ [s.field]] }
    else if c == '\r' then
      { s with mode := CsvMode.afterCR, field := [], row := [],
               rows := s.rows ++ [s.row ++ [s.field]] }
    else { s with mode := CsvMode.inUnquoted, field := s.field ++ [c] }
  | CsvMode.afterCR =>
    if c == '\n' then { s with mode := CsvMode.startField }
    else csvStartField { s with mode := CsvMode.startField } c

/-- End of input: a record in progress (also an unterminated quoted
field, which the reader closes at EOF) is emitted; a file ending exactly
at a record boundary emits nothing further. -/
def csvFinish (s : CsvState) : List (List (List Char)) :=
  match s.mode with
  | CsvMode.startField =>
      if s.row.isEmpty then s.rows else s.rows ++ [s.row ++ [[]]]
  | CsvMode.afterCR => s.rows
  | CsvMode.inUnquoted => s.rows ++ [s.row ++ [s.field]]
  | CsvMode.inQuoted => s.rows ++ [s.row ++ [s.field]]
  | CsvMode.quoteInQuoted => s.rows ++ [s.row ++ [s.field]]

/-- The reader start state. -/
def initCsv : CsvState :=
  { mode := CsvMode.startField, field := [], row := [], rows := [] }

/-- Reader side: split the file into rows of fields. -/
def parseRows (input : List Char) : List (List (List Char)) :=
  csvFinish (input.foldl csvStep initCsv)

/-- Deserialisation into the nine-field struct: any other field count is a
deserialize error that aborts the run. -/
def recordOfFields : List (List Char) → Option TsvRecord
  | [f1, f2, f3, f4, f5, f6, f7, f8, f9] =>
      some ⟨⟨f1⟩, ⟨f2⟩, ⟨f3⟩, ⟨f4⟩, ⟨f5⟩, ⟨f6⟩, ⟨f7⟩, ⟨f8⟩, ⟨f9⟩⟩
  | _ => none

/-- Deserialise all rows, failing on the first malformed one. -/
def decodeRows : List (List (List Char)) → Option (List TsvRecord)
  | [] => some []
  | row :: rest =>
    match recordOfFields row, decodeRows rest with
    | some r, some rs => some (r :: rs)
    | _, _ => none

/-- Reader side composed with deserialisation: the record sequence the
streaming loop of process_tsv_file iterates over. -/
def decodeFile (input : List Char) : Option (List TsvRecord) :=
  decodeRows (parseRows input)

/-- A field the writer emits verbatim: free of the delimiter, the quote
and both terminator characters. -/
def cleanField (f : List Char) : Bool :=
  f.all (fun c => !(specialChar c))

/-- A record all of whose fields are clean. -/
def cleanRecord (r : TsvRecord) : Bool :=
  (recordFields r).all cleanField

/-! ## Lemmas about the HashMap model and the identity resolver -/

lemma find?_eq_head?_filter {α : Type} (p : α → Bool) :
    ∀ l : List α, l.find? p = (l.filter p).head? := by
  intro l
  induction l with
  | nil => rfl
  | cons a t ih =>
    by_cases h : p a
    · rw [List.find?_cons_of_pos t h, List.filter_cons_of_pos h, List.head?_cons]
    · rw [List.find?_cons_of_neg t h, List.filter_cons_of_neg h, ih]

lemma hmLookup_eq_getLast?_filter (m : List (String × String)) (k : String) :
    hmLookup m k =
      ((m.filter (fun p => p.1 == k)).getLast?).map (fun p => p.2) := by
  unfold hmLookup
  rw [find?_eq_head?_filter, List.filter_reverse, List.head?_reverse]

lemma newLookup_eq_getLast (new_users : List JellyfinUser) (name : String) :
    hmLookup (new_users_by_name_to_id new_users) name =
      ((new_users.filter (fun u => u.name == name)).getLast?).map
        (fun u => u.id) := by
  rw [hmLookup_eq_getLast?_filter]
  unfold new_users_by_name_to_id
  rw [List.filter_map]
  rw [List.getLast?_map]
  simp [Option.map_map, Function.comp_def]

lemma create_user_id_map_eq (old_users new_users : List JellyfinUser) :
    create_user_id_map old_users new_users =
      old_users.filterMap (fun o =>
        (hmLookup (new_users_by_name_to_id new_users) o.name).map
          (fun nid => (o.id, nid))) := by
  unfold create_user_id_map
  suffices h : ∀ (l : List JellyfinUser) (m : List (String × String)),
      l.foldl (fun m o =>
          match hmLookup (new_users_by_name_to_id new_users) o.name with
          | some newId => m ++ [(o.id, newId)]
          | none => m) m
        = m ++ l.filterMap (fun o =>
            (hmLookup (new_users_by_name_to_id new_users) o.name).map
              (fun nid => (o.id, nid))) by
    simpa using h old_users []
  intro l
  induction l with
  | nil => intro m; simp
  | cons o t ih =>
    intro m
    cases hga : hmLookup (new_users_by_name_to_id new_users) o.name with
    | some nid => simp [List.foldl_cons, hga, ih, List.filterMap_cons]
    | none => simp [List.foldl_cons, hga, ih, List.filterMap_cons]

lemma hmLookup_append (m1 m2 : List (String × String)) (k : String) :
    hmLookup (m1 ++ m2) k = (hmLookup m2 k).or (hmLookup m1 k) := by
  unfold hmLookup
  rw [List.reverse_append, List.find?_append]
  cases m2.reverse.find? (fun p => p.1 == k) <;> simp

lemma hmLookup_eq_none (m : List (String × String)) (k : String)
    (h : ∀ p ∈ m, p.1 ≠ k) : hmLookup m k = none := by
  unfold hmLookup
  rw [List.find?_eq_none.mpr]
  · rfl
  · intro p hp
    simp only [beq_iff_eq]
    exact h p (List.mem_reverse.mp hp)

lemma hmLookup_singleton (k v : String) :
    hmLookup [(k, v)] k = some v := by
  simp [hmLookup]

lemma cuim_keys (old_users new_users : List JellyfinUser) :
    ∀ p ∈ create_user_id_map old_users new_users,
      p.1 ∈ old_users.map (fun u => u.id) := by
  rw [create_user_id_map_eq]
  intro p hp
  rcases List.mem_filterMap.mp hp with ⟨o, ho, hpo⟩
  cases hl : hmLookup (new_users_by_name_to_id new_users) o.name with
  | none => rw [hl] at hpo; cases hpo
  | some nid =>
    rw [hl] at hpo
    cases hpo
    exact List.mem_map.mpr ⟨o, ho, rfl⟩

lemma cuim_lookup_of_nodup (old_users new_users : List JellyfinUser)
    (h : (old_users.map (fun u => u.id)).Nodup)
    (o : JellyfinUser) (ho : o ∈ old_users) :
    hmLookup (create_user_id_map old_users new_users) o.id =
      hmLookup (new_users_by_name_to_id new_users) o.name := by
  rw [create_user_id_map_eq]
  induction old_users with
  | nil => cases ho
  | cons a t ih =>
    rw [List.map_cons] at h
    have hnd := List.nodup_cons.mp h
    have hkeys : ∀ p ∈ t.filterMap (fun o =>
        (hmLookup (new_users_by_name_to_id new_users) o.name).map
          (fun nid => (o.id, nid))), p.1 ∈ t.map (fun u => u.id) := by
      intro p hp
      exact cuim_keys t new_users p (by rwa [create_user_id_map_eq])
    rcases List.mem_cons.mp ho with rfl | hot
    · have hnone : hmLookup (t.filterMap (fun o =>
          (hmLookup (new_users_by_name_to_id new_users) o.name).map
            (fun nid => (o.id, nid)))) o.id = none := by
        apply hmLookup_eq_none
        intro p hp hpk
        exact hnd.1 (hpk ▸ hkeys p hp)
      cases hga : hmLookup (new_users_by_name_to_id new_users) o.name with
      | some nid =>
        simp only [List.filterMap_cons, hga, Option.map_some']
        show hmLookup ([(o.id, nid)] ++ _) o.id = some nid
        rw [hmLookup_append, hnone, hmLookup_singleton]
        rfl
      | none =>
        simp only [List.filterMap_cons, hga, Option.map_none']
        exact hnone
    · have hoid : o.id ∈ t.map (fun u => u.id) := List.mem_map.mpr ⟨o, hot, rfl⟩
      have htl := ih hnd.2 hot
      cases hga : hmLookup (new_users_by_name_to_id new_users) a.name with
      | none =>
        simp only [List.filterMap_cons, hga, Option.map_none']
        exact htl
      | some nid =>
        simp only [List.filterMap_cons, hga, Option.map_some']
        show hmLookup ([(a.id, nid)] ++ _) o.id = _
        rw [hmLookup_append, htl]
        have hne : hmLookup [(a.id, nid)] o.id = none := by
          apply hmLookup_eq_none
          intro p hp hpk
          rcases List.mem_singleton.mp hp with rfl
          rw [← hpk] at hoid
          exact hnd.1 hoid
        rw [hne]
        cases hmLookup (new_users_by_name_to_id new_users) o.name <;> rfl

lemma hmLookup_all_values (m : List (String × String)) (k v : String)
    (hall : ∀ p ∈ m, p.2 = v) (hk : ∃ p ∈ m, p.1 = k) :
    hmLookup m k = some v := by
  unfold hmLookup
  obtain ⟨p, hp, hpk⟩ := hk
  have hsome : (m.reverse.find? (fun q => q.1 == k)).isSome :=
    List.find?_isSome.mpr ⟨p, List.mem_reverse.mpr hp, by simp [hpk]⟩
  obtain ⟨q, hq⟩ := Option.isSome_iff_exists.mp hsome
  rw [hq, Option.map_some']
  congr 1
  exact hall q (List.mem_reverse.mp (List.mem_of_find?_eq_some hq))

lemma concrete_lookup_A (n : String) :
    hmLookup (new_users_by_name_to_id [⟨"1", "A"⟩, ⟨"2", "A"⟩]) n =
      if ("A" : String) == n then some "2" else none := by
  by_cases hn : ("A" : String) == n <;>
    simp [hmLookup, new_users_by_name_to_id, hn]

/-- C3: the claim quantifies over every list of old identities; it fails
when two old identities share an id.  Concretely, with old identities
[(x, A), (x, B)] and new identities [(1, A), (2, B)], the old identity
(x, A) has a name match (1, A), yet the map sends x to 2 (the insert for
(x, B) overwrote the one for (x, A)), and no new identity named A has id
2. -/
theorem C3_counterexample :
    hmLookup (create_user_id_map
        [⟨"x", "A"⟩, ⟨"x", "B"⟩] [⟨"1", "A"⟩, ⟨"2", "B"⟩]) "x" = some "2" ∧
    (([⟨"1", "A"⟩, ⟨"2", "B"⟩] : List JellyfinUser).any
        (fun n => n.name == "A" && n.id == "2")) = false := by
  decide

/-- C3 (amended): provided the old identities have pairwise-distinct ids,
for every old identity O: if some new identity shares O's name then the
map built by create_user_id_map sends O.id to the id of such a new
identity, and if none does then O.id is absent from the map (lookup
returns none; create_user_id_map is total, so the absence is not an
error). -/
theorem C3_amended_mapping (old_users new_users : List JellyfinUser)
    (hids : (old_users.map (fun u => u.id)).Nodup)
    (o : JellyfinUser) (ho : o ∈ old_users) :
    ((∃ n ∈ new_users, n.name = o.name) →
        ∃ n ∈ new_users, n.name = o.name ∧
          hmLookup (create_user_id_map old_users new_users) o.id = some n.id) ∧
    ((∀ n ∈ new_users, n.name ≠ o.name) →
        hmLookup (create_user_id_map old_users new_users) o.id = none) := by
  rw [cuim_lookup_of_nodup old_users new_users hids o ho, newLookup_eq_getLast]
  constructor
  · rintro ⟨n, hn, hname⟩
    have hne : new_users.filter (fun u => u.name == o.name) ≠ [] := by
      simp only [ne_eq, List.filter_eq_nil_iff, not_forall]
      exact ⟨n, hn, by simp [hname]⟩
    obtain ⟨nL, hnL⟩ := Option.isSome_iff_exists.mp (List.getLast?_isSome.mpr hne)
    have hmem : nL ∈ new_users.filter (fun u => u.name == o.name) :=
      List.mem_of_mem_getLast? (Option.mem_def.mpr hnL)
    have hsp := List.mem_filter.mp hmem
    exact ⟨nL, hsp.1, by simpa using hsp.2, by rw [hnL]; rfl⟩
  · intro hnone
    have hnil : new_users.filter (fun u => u.name == o.name) = [] := by
      apply List.filter_eq_nil_iff.mpr
      intro n hn
      simp [hnone n hn]
    rw [hnil]
    rfl

/-- C3 witness: a concrete instance discharging the hypotheses of the
amended mapping theorem. -/
theorem C3_witness :
    ((([⟨"x", "A"⟩] : List JellyfinUser).map (fun u => u.id)).Nodup ∧
      (⟨"x", "A"⟩ : JellyfinUser) ∈ ([⟨"x", "A"⟩] : List JellyfinUser)) ∧
    (∃ n ∈ ([⟨"1", "A"⟩] : List JellyfinUser), n.name = "A" ∧
        hmLookup (create_user_id_map [⟨"x", "A"⟩] [⟨"1", "A"⟩]) "x" =
          some n.id) :=
  ⟨⟨by decide, by decide⟩,
   (C3_amended_mapping [⟨"x", "A"⟩] [⟨"1", "A"⟩] (by decide) ⟨"x", "A"⟩
      (by decide)).1 ⟨⟨"1", "A"⟩, by decide, rfl⟩⟩

/-- C4: the name-to-id lookup keeps the id of the last identity with a
given name in list order; in particular, with new identities
[(1, A), (2, A)], every old identity named A is mapped to id 2. -/
theorem C4_last_write_wins :
    (∀ (new_users : List JellyfinUser) (name : String),
        hmLookup (new_users_by_name_to_id new_users) name =
          ((new_users.filter (fun u => u.name == name)).getLast?).map
            (fun u => u.id)) ∧
    (∀ (old_users : List JellyfinUser) (o : JellyfinUser),
        o ∈ old_users → o.name = "A" →
          hmLookup (create_user_id_map old_users
              [⟨"1", "A"⟩, ⟨"2", "A"⟩]) o.id = some "2") := by
  refine ⟨newLookup_eq_getLast, ?_⟩
  intro old_users o ho hname
  apply hmLookup_all_values
  · rw [create_user_id_map_eq]
    intro p hp
    rcases List.mem_filterMap.mp hp with ⟨o', ho', hpo⟩
    cases hl : hmLookup (new_users_by_name_to_id [⟨"1", "A"⟩, ⟨"2", "A"⟩])
        o'.name with
    | none => rw [hl] at hpo; cases hpo
    | some nid =>
      rw [hl] at hpo
      cases hpo
      have h2 := concrete_lookup_A o'.name
      rw [hl] at h2
      by_cases hb : ("A" : String) == o'.name
      · rw [if_pos hb] at h2
        exact Option.some.inj h2
      · rw [if_neg hb] at h2
        cases h2
  · refine ⟨(o.id, "2"), ?_, rfl⟩
    rw [create_user_id_map_eq]
    apply List.mem_filterMap.mpr
    refine ⟨o, ho, ?_⟩
    rw [hname, concrete_lookup_A]
    rfl

/-- C4 witness: the general last-wins law at the concrete collision list
of the claim, and a concrete old identity named A mapped to id 2. -/
theorem C4_witness :
    hmLookup (new_users_by_name_to_id [⟨"1", "A"⟩, ⟨"2", "A"⟩]) "A" =
      ((([⟨"1", "A"⟩, ⟨"2", "A"⟩] : List JellyfinUser).filter
          (fun u => u.name == "A")).getLast?).map (fun u => u.id) ∧
    ((⟨"x", "A"⟩ : JellyfinUser) ∈ ([⟨"x", "A"⟩] : List JellyfinUser) ∧
      hmLookup (create_user_id_map [⟨"x", "A"⟩] [⟨"1", "A"⟩, ⟨"2", "A"⟩])
          "x" = some "2") :=
  ⟨C4_last_write_wins.1 [⟨"1", "A"⟩, ⟨"2", "A"⟩] "A",
   by decide,
   C4_last_write_wins.2 [⟨"x", "A"⟩] ⟨"x", "A"⟩ (by decide) rfl⟩

/-! ## Lemmas about the streaming loop -/

lemma processOneRecord_char (cfg : SinkConfig) (map : List (String × String))
    (orc : Oracle) (table : List TsvRecord) (st : RunState) (r0 : TsvRecord) :
    processOneRecord cfg map orc table st r0 =
      if cfg.tsvSink && orc.tsvFail st.processed then
        Except.error (RunError.tsvWriteError st.processed)
      else if cfg.dbSink && orc.dbFail st.processed then
        Except.error (RunError.dbError st.processed)
      else Except.ok (stepPure cfg map table st r0) := by
  cases hm : hmLookup map r0.user_id <;> cases htsv : cfg.tsvSink <;>
    cases hdb : cfg.dbSink <;> cases htf : orc.tsvFail st.processed <;>
      cases hdf : orc.dbFail st.processed <;>
        by_cases hex :
          recordExists (table ++ st.dbPending) (rewriteRecord map r0) <;>
          simp [processOneRecord, stepPure, check_and_insert_record_into_db,
            hm, htsv, hdb, htf, hdf, hex]

lemma stepPure_processed (cfg : SinkConfig) (map : List (String × String))
    (table : List TsvRecord) (st : RunState) (r0 : TsvRecord) :
    (stepPure cfg map table st r0).processed = st.processed + 1 := by
  simp only [stepPure, check_and_insert_record_into_db]
  cases hm : hmLookup map r0.user_id <;> cases htsv : cfg.tsvSink <;>
    cases hdb : cfg.dbSink <;>
      by_cases hex : recordExists (table ++ st.dbPending) (rewriteRecord map r0) <;>
        simp [hm, htsv, hdb, hex]

lemma stepPure_rewritten (cfg : SinkConfig) (map : List (String × String))
    (table : List TsvRecord) (st : RunState) (r0 : TsvRecord) :
    (stepPure cfg map table st r0).rewritten =
      (match hmLookup map r0.user_id with
       | some _ => st.rewritten + 1
       | none => st.rewritten) := by
  simp only [stepPure, check_and_insert_record_into_db]
  cases hm : hmLookup map r0.user_id <;> cases htsv : cfg.tsvSink <;>
    cases hdb : cfg.dbSink <;>
      by_cases hex : recordExists (table ++ st.dbPending) (rewriteRecord map r0) <;>
        simp [hm, htsv, hdb, hex]

lemma stepPure_changesSummary (cfg : SinkConfig) (map : List (String × String))
    (table : List TsvRecord) (st : RunState) (r0 : TsvRecord) :
    (stepPure cfg map table st r0).changesSummary =
      (match hmLookup map r0.user_id with
       | some newId => summaryBump st.changesSummary r0.user_id newId
       | none => st.changesSummary) := by
  simp only [stepPure, check_and_insert_record_into_db]
  cases hm : hmLookup map r0.user_id <;> cases htsv : cfg.tsvSink <;>
    cases hdb : cfg.dbSink <;>
      by_cases hex : recordExists (table ++ st.dbPending) (rewriteRecord map r0) <;>
        simp [hm, htsv, hdb, hex]

lemma stepPure_tsvOut (cfg : SinkConfig) (map : List (String × String))
    (table : List TsvRecord) (st : RunState) (r0 : TsvRecord) :
    (stepPure cfg map table st r0).tsvOut =
      st.tsvOut ++ (if cfg.tsvSink then [rewriteRecord map r0] else []) := by
  simp only [stepPure, check_and_insert_record_into_db]
  cases hm : hmLookup map r0.user_id <;> cases htsv : cfg.tsvSink <;>
    cases hdb : cfg.dbSink <;>
      by_cases hex : recordExists (table ++ st.dbPending) (rewriteRecord map r0) <;>
        simp [hm, htsv, hdb, hex]

lemma stepPure_db_true (cfg : SinkConfig) (map : List (String × String))
    (table : List TsvRecord) (st : RunState) (r0 : TsvRecord)
    (hdb : cfg.dbSink = true) :
    ((stepPure cfg map table st r0).dbPending =
        st.dbPending ++ [rewriteRecord map r0] ∧
      (stepPure cfg map table st r0).insertedSqlite = st.insertedSqlite + 1 ∧
      (stepPure cfg map table st r0).skippedSqlite = st.skippedSqlite ∧
      rewriteRecord map r0 ∉ table ++ st.dbPending) ∨
    ((stepPure cfg map table st r0).dbPending = st.dbPending ∧
      (stepPure cfg map table st r0).insertedSqlite = st.insertedSqlite ∧
      (stepPure cfg map table st r0).skippedSqlite = st.skippedSqlite + 1 ∧
      rewriteRecord map r0 ∈ table ++ st.dbPending) := by
  simp only [stepPure, check_and_insert_record_into_db]
  by_cases hex : recordExists (table ++ st.dbPending) (rewriteRecord map r0)
  · refine Or.inr ?_
    have hmem : rewriteRecord map r0 ∈ table ++ st.dbPending := by
      have := hex
      unfold recordExists at this
      exact of_decide_eq_true this
    cases hm : hmLookup map r0.user_id <;> cases htsv : cfg.tsvSink <;>
      simp [hm, htsv, hdb, hex, hmem]
  · refine Or.inl ?_
    have hmem : rewriteRecord map r0 ∉ table ++ st.dbPending := by
      intro hc
      exact hex (by unfold recordExists; exact decide_eq_true hc)
    cases hm : hmLookup map r0.user_id <;> cases htsv : cfg.tsvSink <;>
      simp [hm, htsv, hdb, hex, hmem]

lemma stepPure_db_false (cfg : SinkConfig) (map : List (String × String))
    (table : List TsvRecord) (st : RunState) (r0 : TsvRecord)
    (hdb : cfg.dbSink = false) :
    (stepPure cfg map table st r0).dbPending = st.dbPending ∧
    (stepPure cfg map table st r0).insertedSqlite = st.insertedSqlite ∧
    (stepPure cfg map table st r0).skippedSqlite = st.skippedSqlite := by
  simp only [stepPure, check_and_insert_record_into_db]
  cases hm : hmLookup map r0.user_id <;> cases htsv : cfg.tsvSink <;>
    simp [hm, htsv, hdb]

lemma sumCounts_cons (e : String × String × Nat)
    (s : List (String × String × Nat)) :
    sumCounts (e :: s) = e.2.2 + sumCounts s := by
  simp [sumCounts]

lemma sumCounts_append (s t : List (String × String × Nat)) :
    sumCounts (s ++ t) = sumCounts s + sumCounts t := by
  simp [sumCounts]

lemma summaryBump_keys (s : List (String × String × Nat)) (k v : String) :
    (summaryBump s k v).map (fun e => e.1) =
      if s.any (fun e => e.1 == k) then s.map (fun e => e.1)
      else s.map (fun e => e.1) ++ [k] := by
  unfold summaryBump
  by_cases h : s.any (fun e => e.1 == k) = true
  · rw [if_pos h, if_pos h, List.map_map]
    apply List.map_congr_left
    intro e _
    simp only [Function.comp_apply]
    split <;> rfl
  · rw [if_neg h, if_neg h, List.map_append]
    rfl

lemma summaryBump_nodup (s : List (String × String × Nat)) (k v : String)
    (hnd : (s.map (fun e => e.1)).Nodup) :
    ((summaryBump s k v).map (fun e => e.1)).Nodup := by
  rw [summaryBump_keys]
  by_cases h : s.any (fun e => e.1 == k) = true
  · rwa [if_pos h]
  · rw [if_neg h]
    rw [List.nodup_append]
    refine ⟨hnd, List.nodup_singleton k, ?_⟩
    intro x hx
    rcases List.mem_map.mp hx with ⟨e, he, hek⟩
    simp only [List.mem_singleton]
    intro hxk
    rw [Bool.not_eq_true, List.any_eq_false] at h
    exact h e he (by simp [hek, hxk])

lemma sumCounts_summaryBump (s : List (String × String × Nat)) (k v : String)
    (hnd : (s.map (fun e => e.1)).Nodup)
    (hany : s.any (fun e => e.1 == k) = true) :
    sumCounts (summaryBump s k v) = sumCounts s + 1 := by
  unfold summaryBump
  rw [if_pos hany]
  induction s with
  | nil => cases hany
  | cons e t ih =>
    rw [List.map_cons] at hnd
    have hnd' := List.nodup_cons.mp hnd
    rw [List.map_cons]
    by_cases hek : (e.1 == k) = true
    · rw [if_pos hek]
      have heq : e.1 = k := by simpa using hek
      have htid : t.map (fun x =>
          if x.1 == k then (x.1, (x.2.1, x.2.2 + 1)) else x) = t := by
        have : ∀ x ∈ t, (if x.1 == k then (x.1, (x.2.1, x.2.2 + 1)) else x)
            = id x := by
          intro x hx
          have hxk : (x.1 == k) = false := by
            have : x.1 ≠ e.1 := by
              intro hx1
              exact hnd'.1 (hx1 ▸ List.mem_map.mpr ⟨x, hx, rfl⟩)
            simp [heq ▸ this]
          rw [hxk]
          rfl
        rw [List.map_congr_left this, List.map_id]
      rw [htid, sumCounts_cons, sumCounts_cons]
      dsimp only
      omega
    · rw [if_neg hek]
      have hany' : t.any (fun x => x.1 == k) = true := by
        rw [List.any_cons] at hany
        rcases Bool.or_eq_true_iff.mp hany with h1 | h1
        · exact absurd h1 hek
        · exact h1
      rw [sumCounts_cons, sumCounts_cons, ih hnd'.2 hany']
      omega

lemma summaryBump_sum (s : List (String × String × Nat)) (k v : String)
    (hnd : (s.map (fun e => e.1)).Nodup) :
    sumCounts (summaryBump s k v) = sumCounts s + 1 := by
  by_cases hany : s.any (fun e => e.1 == k) = true
  · exact sumCounts_summaryBump s k v hnd hany
  · unfold summaryBump
    rw [if_neg hany, sumCounts_append, sumCounts_cons]
    simp [sumCounts]

lemma stepPure_summary_inv (cfg : SinkConfig) (map : List (String × String))
    (table : List TsvRecord) (st : RunState) (r0 : TsvRecord)
    (hnd : (st.changesSummary.map (fun e => e.1)).Nodup)
    (hsum : st.rewritten = sumCounts st.changesSummary) :
    (((stepPure cfg map table st r0).changesSummary.map (fun e => e.1)).Nodup) ∧
    (stepPure cfg map table st r0).rewritten =
      sumCounts (stepPure cfg map table st r0).changesSummary := by
  rw [stepPure_rewritten, stepPure_changesSummary]
  cases hm : hmLookup map r0.user_id with
  | none => exact ⟨hnd, hsum⟩
  | some newId =>
    refine ⟨summaryBump_nodup _ _ _ hnd, ?_⟩
    rw [summaryBump_sum _ _ _ hnd, hsum]

lemma loopPure_nil (cfg : SinkConfig) (map : List (String × String))
    (table : List TsvRecord) (st : RunState) :
    loopPure cfg map table st [] = st := rfl

lemma loopPure_cons (cfg : SinkConfig) (map : List (String × String))
    (table : List TsvRecord) (st : RunState) (r : TsvRecord)
    (rs : List TsvRecord) :
    loopPure cfg map table st (r :: rs) =
      loopPure cfg map table (stepPure cfg map table st r) rs := rfl

lemma runLoop_ok_inv (cfg : SinkConfig) (map : List (String × String))
    (orc : Oracle) (table : List TsvRecord) :
    ∀ (rs : List TsvRecord) (st st' : RunState),
      runLoop cfg map orc table st rs = Except.ok st' →
      st' = loopPure cfg map table st rs := by
  intro rs
  induction rs with
  | nil =>
    intro st st' h
    simp only [runLoop] at h
    injection h with h
    rw [← h, loopPure_nil]
  | cons r t ih =>
    intro st st' h
    simp only [runLoop] at h
    rcases hs : processOneRecord cfg map orc table st r with e | st1 <;>
      rw [hs] at h
    · cases h
    · have hc := processOneRecord_char cfg map orc table st r
      rw [hs] at hc
      by_cases c1 : (cfg.tsvSink && orc.tsvFail st.processed) = true
      · rw [if_pos c1] at hc; cases hc
      · rw [if_neg c1] at hc
        by_cases c2 : (cfg.dbSink && orc.dbFail st.processed) = true
        · rw [if_pos c2] at hc; cases hc
        · rw [if_neg c2] at hc
          injection hc with h1
          rw [loopPure_cons, ← h1]
          exact ih st1 st' h

lemma runLoop_noFail (cfg : SinkConfig) (map : List (String × String))
    (orc : Oracle) (table : List TsvRecord)
    (hts : ∀ j, orc.tsvFail j = false) (hdf : ∀ j, orc.dbFail j = false) :
    ∀ (rs : List TsvRecord) (st : RunState),
      runLoop cfg map orc table st rs =
        Except.ok (loopPure cfg map table st rs) := by
  intro rs
  induction rs with
  | nil => intro st; rfl
  | cons r t ih =>
    intro st
    have hc := processOneRecord_char cfg map orc table st r
    rw [hts st.processed, hdf st.processed] at hc
    simp only [Bool.and_false, Bool.false_eq_true, if_false] at hc
    simp only [runLoop, hc]
    exact ih _

lemma stepPure_pending_mono (cfg : SinkConfig) (map : List (String × String))
    (table : List TsvRecord) (st : RunState) (r0 : TsvRecord) :
    ∃ l, (stepPure cfg map table st r0).dbPending = st.dbPending ++ l := by
  cases hdb : cfg.dbSink
  · exact ⟨[], by rw [(stepPure_db_false cfg map table st r0 hdb).1,
      List.append_nil]⟩
  · rcases stepPure_db_true cfg map table st r0 hdb with
      ⟨h, _, _, _⟩ | ⟨h, _, _, _⟩
    · exact ⟨[rewriteRecord map r0], h⟩
    · exact ⟨[], by rw [h, List.append_nil]⟩

lemma loopPure_pending_mono (cfg : SinkConfig) (map : List (String × String))
    (table : List TsvRecord) :
    ∀ (rs : List TsvRecord) (st : RunState),
      ∃ l, (loopPure cfg map table st rs).dbPending = st.dbPending ++ l := by
  intro rs
  induction rs with
  | nil => intro st; exact ⟨[], by rw [loopPure_nil, List.append_nil]⟩
  | cons r t ih =>
    intro st
    rw [loopPure_cons]
    obtain ⟨l1, hl1⟩ := stepPure_pending_mono cfg map table st r
    obtain ⟨l2, hl2⟩ := ih (stepPure cfg map table st r)
    exact ⟨l1 ++ l2, by rw [hl2, hl1, List.append_assoc]⟩

lemma loopPure_processed (cfg : SinkConfig) (map : List (String × String))
    (table : List TsvRecord) :
    ∀ (rs : List TsvRecord) (st : RunState),
      (loopPure cfg map table st rs).processed = st.processed + rs.length := by
  intro rs
  induction rs with
  | nil => intro st; rw [loopPure_nil]; rfl
  | cons r t ih =>
    intro st
    rw [loopPure_cons, ih, stepPure_processed]
    simp only [List.length_cons]
    omega

lemma loopPure_counts (cfg : SinkConfig) (map : List (String × String))
    (table : List TsvRecord) (hdb : cfg.dbSink = true) :
    ∀ (rs : List TsvRecord) (st : RunState),
      (loopPure cfg map table st rs).insertedSqlite +
          (loopPure cfg map table st rs).skippedSqlite =
        st.insertedSqlite + st.skippedSqlite + rs.length := by
  intro rs
  induction rs with
  | nil => intro st; rw [loopPure_nil]; rfl
  | cons r t ih =>
    intro st
    rw [loopPure_cons, ih]
    rcases stepPure_db_true cfg map table st r hdb with
      ⟨_, hi, hs, _⟩ | ⟨_, hi, hs, _⟩ <;>
      rw [hi, hs] <;> simp only [List.length_cons] <;> omega

lemma loopPure_mem (cfg : SinkConfig) (map : List (String × String))
    (table : List TsvRecord) (hdb : cfg.dbSink = true) :
    ∀ (rs : List TsvRecord) (st : RunState) (r : TsvRecord), r ∈ rs →
      rewriteRecord map r ∈ table ++ (loopPure cfg map table st rs).dbPending := by
  intro rs
  induction rs with
  | nil => intro st r h; cases h
  | cons a t ih =>
    intro st r h
    rw [loopPure_cons]
    rcases List.mem_cons.mp h with rfl | ht
    · have h1 : rewriteRecord map r ∈
          table ++ (stepPure cfg map table st r).dbPending := by
        rcases stepPure_db_true cfg map table st r hdb with
          ⟨hp, _, _, _⟩ | ⟨hp, _, _, hmem⟩
        · rw [hp]
          simp [List.mem_append]
        · rw [hp]
          exact hmem
      obtain ⟨l, hl⟩ := loopPure_pending_mono cfg map table t
        (stepPure cfg map table st r)
      rw [hl]
      rw [List.mem_append] at h1
      rcases h1 with h1 | h1
      · exact List.mem_append.mpr (Or.inl h1)
      · exact List.mem_append.mpr (Or.inr (List.mem_append.mpr (Or.inl h1)))
    · exact ih (stepPure cfg map table st a) r ht

lemma loopPure_skip_all (cfg : SinkConfig) (map : List (String × String))
    (table : List TsvRecord) (hdb : cfg.dbSink = true) :
    ∀ (rs : List TsvRecord) (st : RunState),
      (∀ r ∈ rs, rewriteRecord map r ∈ table) →
      (loopPure cfg map table st rs).dbPending = st.dbPending ∧
      (loopPure cfg map table st rs).skippedSqlite =
        st.skippedSqlite + rs.length ∧
      (loopPure cfg map table st rs).insertedSqlite = st.insertedSqlite := by
  intro rs
  induction rs with
  | nil =>
    intro st _
    rw [loopPure_nil]
    exact ⟨rfl, rfl, rfl⟩
  | cons a t ih =>
    intro st hmem
    rw [loopPure_cons]
    have hma : rewriteRecord map a ∈ table ++ st.dbPending :=
      List.mem_append.mpr (Or.inl (hmem a (List.mem_cons_self a t)))
    rcases stepPure_db_true cfg map table st a hdb with
      ⟨_, _, _, hno⟩ | ⟨hp, hi, hs, _⟩
    · exact absurd hma hno
    · obtain ⟨h1, h2, h3⟩ := ih (stepPure cfg map table st a)
        (fun r hr => hmem r (List.mem_cons_of_mem a hr))
      refine ⟨by rw [h1, hp], ?_, by rw [h3, hi]⟩
      rw [h2, hs]
      simp only [List.length_cons]
      omega

lemma loopPure_summary_inv (cfg : SinkConfig) (map : List (String × String))
    (table : List TsvRecord) :
    ∀ (rs : List TsvRecord) (st : RunState),
      (st.changesSummary.map (fun e => e.1)).Nodup →
      st.rewritten = sumCounts st.changesSummary →
      ((loopPure cfg map table st rs).changesSummary.map
          (fun e => e.1)).Nodup ∧
      (loopPure cfg map table st rs).rewritten =
        sumCounts (loopPure cfg map table st rs).changesSummary := by
  intro rs
  induction rs with
  | nil =>
    intro st h1 h2
    rw [loopPure_nil]
    exact ⟨h1, h2⟩
  | cons r t ih =>
    intro st h1 h2
    rw [loopPure_cons]
    obtain ⟨h1', h2'⟩ := stepPure_summary_inv cfg map table st r h1 h2
    exact ih (stepPure cfg map table st r) h1' h2'

lemma runLoop_db_error_at (cfg : SinkConfig) (map : List (String × String))
    (orc : Oracle) (table : List TsvRecord) (hdb : cfg.dbSink = true) :
    ∀ (rs : List TsvRecord) (st : RunState) (K : Nat),
      K < rs.length →
      orc.dbFail (st.processed + K) = true →
      (∀ j, j < K → orc.dbFail (st.processed + j) = false) →
      (∀ j, j ≤ K → orc.tsvFail (st.processed + j) = false) →
      runLoop cfg map orc table st rs =
        Except.error (RunError.dbError (st.processed + K)) := by
  intro rs
  induction rs with
  | nil => intro st K hK; exact absurd hK (Nat.not_lt_zero K)
  | cons r t ih =>
    intro st K hK hfail hprev htsv
    have hc := processOneRecord_char cfg map orc table st r
    have ht0 : orc.tsvFail st.processed = false := by
      have := htsv 0 (Nat.zero_le K)
      rwa [Nat.add_zero] at this
    cases K with
    | zero =>
      have hf0 : orc.dbFail st.processed = true := by
        rwa [Nat.add_zero] at hfail
      rw [ht0, hf0, hdb] at hc
      simp only [Bool.and_false, Bool.and_true, Bool.false_eq_true, if_false,
        if_true] at hc
      simp only [runLoop, hc, Nat.add_zero]
    | succ k =>
      have hd0 : orc.dbFail st.processed = false := by
        have := hprev 0 (Nat.succ_pos k)
        rwa [Nat.add_zero] at this
      rw [ht0, hd0] at hc
      simp only [Bool.and_false, Bool.false_eq_true, if_false] at hc
      simp only [runLoop, hc]
      have hps := stepPure_processed cfg map table st r
      have harith : (stepPure cfg map table st r).processed + k =
          st.processed + (k + 1) := by
        rw [hps]; omega
      rw [show st.processed + (k + 1) =
            (stepPure cfg map table st r).processed + k from harith.symm]
      apply ih
      · simpa using Nat.lt_of_succ_lt_succ hK
      · rw [harith]; exact hfail
      · intro j hj
        rw [hps, show st.processed + 1 + j = st.processed + (j + 1) from by omega]
        exact hprev (j + 1) (by omega)
      · intro j hj
        rw [hps, show st.processed + 1 + j = st.processed + (j + 1) from by omega]
        exact htsv (j + 1) (by omega)

lemma runLoop_tsv_error_at (cfg : SinkConfig) (map : List (String × String))
    (orc : Oracle) (table : List TsvRecord) (hts : cfg.tsvSink = true) :
    ∀ (rs : List TsvRecord) (st : RunState) (K : Nat),
      K < rs.length →
      orc.tsvFail (st.processed + K) = true →
      (∀ j, j < K → orc.tsvFail (st.processed + j) = false) →
      (∀ j, j < K → orc.dbFail (st.processed + j) = false) →
      runLoop cfg map orc table st rs =
        Except.error (RunError.tsvWriteError (st.processed + K)) := by
  intro rs
  induction rs with
  | nil => intro st K hK; exact absurd hK (Nat.not_lt_zero K)
  | cons r t ih =>
    intro st K hK hfail hprev hdprev
    have hc := processOneRecord_char cfg map orc table st r
    cases K with
    | zero =>
      have hf0 : orc.tsvFail st.processed = true := by
        rwa [Nat.add_zero] at hfail
      rw [hf0, hts] at hc
      simp only [Bool.and_true, Bool.true_and, if_true] at hc
      simp only [runLoop, hc, Nat.add_zero]
    | succ k =>
      have ht0 : orc.tsvFail st.processed = false := by
        have := hprev 0 (Nat.succ_pos k)
        rwa [Nat.add_zero] at this
      have hd0 : orc.dbFail st.processed = false := by
        have := hdprev 0 (Nat.succ_pos k)
        rwa [Nat.add_zero] at this
      rw [ht0, hd0] at hc
      simp only [Bool.and_false, Bool.false_eq_true, if_false] at hc
      simp only [runLoop, hc]
      have hps := stepPure_processed cfg map table st r
      have harith : (stepPure cfg map table st r).processed + k =
          st.processed + (k + 1) := by
        rw [hps]; omega
      rw [show st.processed + (k + 1) =
            (stepPure cfg map table st r).processed + k from harith.symm]
      apply ih
      · simpa using Nat.lt_of_succ_lt_succ hK
      · rw [harith]; exact hfail
      · intro j hj
        rw [hps, show st.processed + 1 + j = st.processed + (j + 1) from by omega]
        exact hprev (j + 1) (by omega)
      · intro j hj
        rw [hps, show st.processed + 1 + j = st.processed + (j + 1) from by omega]
        exact hdprev (j + 1) (by omega)

/-- C1: if the relational sink is configured and check_and_insert fails on
the K-th record (earlier records all succeeding), the run aborts with the
original check/insert error as its failure reason, an explicit ROLLBACK is
issued, and the committed table afterwards equals the table before the
run: no rows from this run survive, for every position K.  The conclusion
does not depend on orc.rollbackFail, so a failing rollback does not
replace the propagated error. -/
theorem C1_db_error_rollback (cfg : SinkConfig) (map : List (String × String))
    (orc : Oracle) (table records : List TsvRecord) (K : Nat)
    (hdb : cfg.dbSink = true)
    (hK : K < records.length)
    (hfail : orc.dbFail K = true)
    (hprev : ∀ j, j < K → orc.dbFail j = false)
    (htsv : ∀ j, j ≤ K → orc.tsvFail j = false) :
    (process_tsv_file cfg map orc table records).outcome =
      Except.error (RunError.dbError K) ∧
    (process_tsv_file cfg map orc table records).finalTable = table ∧
    (process_tsv_file cfg map orc table records).rollbackAttempted = true := by
  have hzero : initState.processed = 0 := rfl
  have hloop := runLoop_db_error_at cfg map orc table hdb records initState K hK
    (by rw [hzero, Nat.zero_add]; exact hfail)
    (fun j hj => by rw [hzero, Nat.zero_add]; exact hprev j hj)
    (fun j hj => by rw [hzero, Nat.zero_add]; exact htsv j hj)
  rw [hzero, Nat.zero_add] at hloop
  simp only [process_tsv_file, hloop]
  refine ⟨?_, ?_, ?_⟩ <;> simp

/-- C1 witness: a two-record run whose second check_and_insert fails. -/
theorem C1_witness :
    ((1 : Nat) < 2 ∧
      (Oracle.mk (fun _ => false) (fun j => j == 1) false false false).dbFail 1
        = true) ∧
    (process_tsv_file ⟨false, true⟩ []
        (Oracle.mk (fun _ => false) (fun j => j == 1) false false false)
        [] [⟨"a", "b", "c", "d", "e", "f", "g", "h", "i"⟩,
            ⟨"a2", "b", "c", "d", "e", "f", "g", "h", "i"⟩]).outcome =
      Except.error (RunError.dbError 1) ∧
    (process_tsv_file ⟨false, true⟩ []
        (Oracle.mk (fun _ => false) (fun j => j == 1) false false false)
        [] [⟨"a", "b", "c", "d", "e", "f", "g", "h", "i"⟩,
            ⟨"a2", "b", "c", "d", "e", "f", "g", "h", "i"⟩]).finalTable = [] := by
  refine ⟨⟨by decide, rfl⟩, ?_, ?_⟩
  · exact (C1_db_error_rollback ⟨false, true⟩ [] _ [] _ 1 rfl (by decide) rfl
      (fun j hj => by
        have h0 : j = 0 := by omega
        subst h0; rfl)
      (fun j _ => rfl)).1
  · exact (C1_db_error_rollback ⟨false, true⟩ [] _ [] _ 1 rfl (by decide) rfl
      (fun j hj => by
        have h0 : j = 0 := by omega
        subst h0; rfl)
      (fun j _ => rfl)).2.1

/-- C6: if the flat-file sink is configured and the TSV write of the K-th
record fails (earlier records all succeeding), the run aborts with the
write error, and the committed relational table is unchanged afterwards:
the open transaction's pending rows are discarded when the returned-from
run drops the connection, exactly as an explicit rollback would. -/
theorem C6_tsv_error_aborts (cfg : SinkConfig) (map : List (String × String))
    (orc : Oracle) (table records : List TsvRecord) (K : Nat)
    (hts : cfg.tsvSink = true)
    (hK : K < records.length)
    (hfail : orc.tsvFail K = true)
    (hprev : ∀ j, j < K → orc.tsvFail j = false)
    (hdprev : ∀ j, j < K → orc.dbFail j = false) :
    (process_tsv_file cfg map orc table records).outcome =
      Except.error (RunError.tsvWriteError K) ∧
    (process_tsv_file cfg map orc table records).finalTable = table := by
  have hzero : initState.processed = 0 := rfl
  have hloop := runLoop_tsv_error_at cfg map orc table hts records initState K hK
    (by rw [hzero, Nat.zero_add]; exact hfail)
    (fun j hj => by rw [hzero, Nat.zero_add]; exact hprev j hj)
    (fun j hj => by rw [hzero, Nat.zero_add]; exact hdprev j hj)
  rw [hzero, Nat.zero_add] at hloop
  simp only [process_tsv_file, hloop]
  refine ⟨?_, ?_⟩ <;> simp

/-- C6 witness: a run with both sinks configured whose first TSV write
fails; the table stays empty. -/
theorem C6_witness :
    ((0 : Nat) < 1 ∧
      (Oracle.mk (fun j => j == 0) (fun _ => false) false false false).tsvFail 0
        = true) ∧
    (process_tsv_file ⟨true, true⟩ []
        (Oracle.mk (fun j => j == 0) (fun _ => false) false false false)
        [] [⟨"a", "b", "c", "d", "e", "f", "g", "h", "i"⟩]).outcome =
      Except.error (RunError.tsvWriteError 0) ∧
    (process_tsv_file ⟨true, true⟩ []
        (Oracle.mk (fun j => j == 0) (fun _ => false) false false false)
        [] [⟨"a", "b", "c", "d", "e", "f", "g", "h", "i"⟩]).finalTable = [] := by
  refine ⟨⟨by decide, rfl⟩, ?_, ?_⟩
  · exact (C6_tsv_error_aborts ⟨true, true⟩ [] _ [] _ 0 rfl (by decide) rfl
      (fun j hj => absurd hj (by omega)) (fun j hj => absurd hj (by omega))).1
  · exact (C6_tsv_error_aborts ⟨true, true⟩ [] _ [] _ 0 rfl (by decide) rfl
      (fun j hj => absurd hj (by omega)) (fun j hj => absurd hj (by omega))).2

/-- C7: if every per-record operation and the flush succeed but COMMIT
fails, the run aborts with the commit error as its cause, a ROLLBACK is
attempted first, the committed table is unchanged, and the outcome is the
same whether or not that rollback itself fails (a rollback failure is
logged, never propagated). -/
theorem C7_commit_failure (cfg : SinkConfig) (map : List (String × String))
    (orc : Oracle) (table records : List TsvRecord)
    (hdb : cfg.dbSink = true)
    (hts : ∀ j, orc.tsvFail j = false)
    (hdf : ∀ j, orc.dbFail j = false)
    (hfl : orc.flushFail = false)
    (hcm : orc.commitFail = true) :
    (process_tsv_file cfg map orc table records).outcome =
      Except.error RunError.commitError ∧
    (process_tsv_file cfg map orc table records).finalTable = table ∧
    (process_tsv_file cfg map orc table records).rollbackAttempted = true ∧
    (∀ b, (process_tsv_file cfg map
        { orc with rollbackFail := b } table records).outcome =
      Except.error RunError.commitError) := by
  have hloop := runLoop_noFail cfg map orc table hts hdf records initState
  refine ⟨?_, ?_, ?_, ?_⟩
  · simp only [process_tsv_file, hloop]
    simp [hfl, hcm, hdb]
  · simp only [process_tsv_file, hloop]
    simp [hfl, hcm, hdb]
  · simp only [process_tsv_file, hloop]
    simp [hfl, hcm, hdb]
  · intro b
    have hloop' := runLoop_noFail cfg map { orc with rollbackFail := b } table
      hts hdf records initState
    simp only [process_tsv_file, hloop']
    simp [hfl, hcm, hdb]

/-- C7 witness: a one-record run with both sinks whose COMMIT fails. -/
theorem C7_witness :
    ((Oracle.mk (fun _ => false) (fun _ => false) false true false).flushFail
        = false ∧
      (Oracle.mk (fun _ => false) (fun _ => false) false true false).commitFail
        = true) ∧
    (process_tsv_file ⟨true, true⟩ []
        (Oracle.mk (fun _ => false) (fun _ => false) false true false)
        [] [⟨"a", "b", "c", "d", "e", "f", "g", "h", "i"⟩]).outcome =
      Except.error RunError.commitError ∧
    (process_tsv_file ⟨true, true⟩ []
        (Oracle.mk (fun _ => false) (fun _ => false) false true false)
        [] [⟨"a", "b", "c", "d", "e", "f", "g", "h", "i"⟩]).finalTable = [] := by
  refine ⟨⟨rfl, rfl⟩, ?_, ?_⟩
  · exact (C7_commit_failure ⟨true, true⟩ [] _ [] _ rfl (fun _ => rfl)
      (fun _ => rfl) rfl rfl).1
  · exact (C7_commit_failure ⟨true, true⟩ [] _ [] _ rfl (fun _ => rfl)
      (fun _ => rfl) rfl rfl).2.1

/-- C2: as stated, the claim fails when the input file itself contains a
duplicate row.  On input [r, r] against an empty table, the first run
inserts once and skips once, while the second run skips twice, so the
second run's duplicate-skip count (2) differs from the first run's
inserted count (1).  (The final-table part of the claim does hold; only
the count identity is wrong.) -/
theorem C2_counterexample :
    (process_tsv_file ⟨false, true⟩ [] noFailOracle []
        [⟨"a", "b", "c", "d", "e", "f", "g", "h", "i"⟩,
         ⟨"a", "b", "c", "d", "e", "f", "g", "h", "i"⟩]).outcome =
      Except.ok
        { processed := 2, rewritten := 0, insertedSqlite := 1,
          skippedSqlite := 1, changesSummary := [], tsvOut := [],
          dbPending := [⟨"a", "b", "c", "d", "e", "f", "g", "h", "i"⟩] } ∧
    (process_tsv_file ⟨false, true⟩ [] noFailOracle
        (process_tsv_file ⟨false, true⟩ [] noFailOracle []
          [⟨"a", "b", "c", "d", "e", "f", "g", "h", "i"⟩,
           ⟨"a", "b", "c", "d", "e", "f", "g", "h", "i"⟩]).finalTable
        [⟨"a", "b", "c", "d", "e", "f", "g", "h", "i"⟩,
         ⟨"a", "b", "c", "d", "e", "f", "g", "h", "i"⟩]).outcome =
      Except.ok
        { processed := 2, rewritten := 0, insertedSqlite := 0,
          skippedSqlite := 2, changesSummary := [], tsvOut := [],
          dbPending := [] } ∧
    (2 : Nat) ≠ 1 := by
  refine ⟨by decide, by decide, by decide⟩

/-- C2 (amended): re-running the pipeline on the same input against the
table produced by a first successful run changes nothing: the second
run's final table equals the first run's, and its duplicate-skip count
equals the first run's inserted count plus the first run's skipped count
(= the number of records); in particular it equals the first run's
inserted count exactly when the first run skipped no duplicates. -/
theorem C2_amended_rerun (cfg : SinkConfig) (map : List (String × String))
    (table records : List TsvRecord) (hdb : cfg.dbSink = true) :
    ∃ st1 st2 : RunState,
      (process_tsv_file cfg map noFailOracle table records).outcome =
        Except.ok st1 ∧
      (process_tsv_file cfg map noFailOracle
          (process_tsv_file cfg map noFailOracle table records).finalTable
          records).outcome = Except.ok st2 ∧
      (process_tsv_file cfg map noFailOracle
          (process_tsv_file cfg map noFailOracle table records).finalTable
          records).finalTable =
        (process_tsv_file cfg map noFailOracle table records).finalTable ∧
      st2.skippedSqlite = st1.insertedSqlite + st1.skippedSqlite ∧
      st1.insertedSqlite + st1.skippedSqlite = records.length := by
  have hnf1 : ∀ j, noFailOracle.tsvFail j = false := fun _ => rfl
  have hnf2 : ∀ j, noFailOracle.dbFail j = false := fun _ => rfl
  have hloop1 := runLoop_noFail cfg map noFailOracle table hnf1 hnf2 records
    initState
  have hp1 : process_tsv_file cfg map noFailOracle table records =
      { outcome := Except.ok (loopPure cfg map table initState records),
        finalTable :=
          table ++ (loopPure cfg map table initState records).dbPending,
        rollbackAttempted := false } := by
    simp only [process_tsv_file, hloop1]
    simp [noFailOracle, hdb]
  have hloop2 := runLoop_noFail cfg map noFailOracle
    (table ++ (loopPure cfg map table initState records).dbPending) hnf1 hnf2
    records initState
  have hp2 : process_tsv_file cfg map noFailOracle
      (table ++ (loopPure cfg map table initState records).dbPending) records =
      { outcome := Except.ok (loopPure cfg map
          (table ++ (loopPure cfg map table initState records).dbPending)
          initState records),
        finalTable :=
          (table ++ (loopPure cfg map table initState records).dbPending) ++
            (loopPure cfg map
              (table ++ (loopPure cfg map table initState records).dbPending)
              initState records).dbPending,
        rollbackAttempted := false } := by
    simp only [process_tsv_file, hloop2]
    simp [noFailOracle, hdb]
  have hmem : ∀ r ∈ records, rewriteRecord map r ∈
      table ++ (loopPure cfg map table initState records).dbPending :=
    fun r hr => loopPure_mem cfg map table hdb records initState r hr
  have hskip := loopPure_skip_all cfg map
    (table ++ (loopPure cfg map table initState records).dbPending) hdb records
    initState hmem
  have hcounts := loopPure_counts cfg map table hdb records initState
  refine ⟨loopPure cfg map table initState records, ?_⟩
  refine ⟨loopPure cfg map
      (table ++ (loopPure cfg map table initState records).dbPending)
      initState records, ?_, ?_, ?_, ?_, ?_⟩
  · rw [hp1]
  · rw [hp1]
    exact congrArg RunResult.outcome hp2
  · rw [hp1]
    show (process_tsv_file cfg map noFailOracle
        (table ++ (loopPure cfg map table initState records).dbPending)
        records).finalTable = _
    rw [hp2]
    show _ ++ (loopPure cfg map
        (table ++ (loopPure cfg map table initState records).dbPending)
        initState records).dbPending = _
    rw [hskip.1]
    simp [initState]
  · rw [hskip.2.1, hcounts]
    simp [initState]
  · rw [hcounts]
    simp [initState]

/-- C2 witness: the amended rerun law at a concrete one-record input. -/
theorem C2_witness :
    (SinkConfig.mk false true).dbSink = true ∧
    (∃ st1 st2 : RunState,
      (process_tsv_file ⟨false, true⟩ [] noFailOracle []
          [⟨"a", "b", "c", "d", "e", "f", "g", "h", "i"⟩]).outcome =
        Except.ok st1 ∧
      (process_tsv_file ⟨false, true⟩ [] noFailOracle
          (process_tsv_file ⟨false, true⟩ [] noFailOracle []
            [⟨"a", "b", "c", "d", "e", "f", "g", "h", "i"⟩]).finalTable
          [⟨"a", "b", "c", "d", "e", "f", "g", "h", "i"⟩]).outcome =
        Except.ok st2 ∧
      (process_tsv_file ⟨false, true⟩ [] noFailOracle
          (process_tsv_file ⟨false, true⟩ [] noFailOracle []
            [⟨"a", "b", "c", "d", "e", "f", "g", "h", "i"⟩]).finalTable
          [⟨"a", "b", "c", "d", "e", "f", "g", "h", "i"⟩]).finalTable =
        (process_tsv_file ⟨false, true⟩ [] noFailOracle []
          [⟨"a", "b", "c", "d", "e", "f", "g", "h", "i"⟩]).finalTable ∧
      st2.skippedSqlite = st1.insertedSqlite + st1.skippedSqlite ∧
      st1.insertedSqlite + st1.skippedSqlite =
        ([⟨"a", "b", "c", "d", "e", "f", "g", "h", "i"⟩] :
          List TsvRecord).length) :=
  ⟨rfl, C2_amended_rerun ⟨false, true⟩ [] []
    [⟨"a", "b", "c", "d", "e", "f", "g", "h", "i"⟩] rfl⟩

/-- C5: the record handed to the sinks is the input record with only the
user-id field touched: it is replaced by the mapped value exactly when
the input user id is a key of the map and kept otherwise.  The flat-file
sink receives exactly that rewritten record, and the relational sink is
called on exactly that rewritten record: the transaction state after a
step is the rows component of check_and_insert applied to the rewritten
record.  In the concrete single-record scenario with map old-123 to
new-456 (flat-file sink alone, and both sinks) the output row equals the
input row with user id new-456, with processed = 1 and rewritten = 1 in
the summary, and with both sinks the committed table holds exactly that
row. -/
theorem C5_rewrite_frame :
    (∀ (map : List (String × String)) (r : TsvRecord),
        rewriteRecord map r =
          { r with user_id := (hmLookup map r.user_id).getD r.user_id }) ∧
    (∀ (cfg : SinkConfig) (map : List (String × String))
        (table : List TsvRecord) (st : RunState) (r : TsvRecord),
        (stepPure cfg map table st r).tsvOut =
          st.tsvOut ++ (if cfg.tsvSink then [rewriteRecord map r] else [])) ∧
    (∀ (cfg : SinkConfig) (map : List (String × String))
        (table : List TsvRecord) (st : RunState) (r : TsvRecord),
        table ++ (stepPure cfg map table st r).dbPending =
          (if cfg.dbSink then
            (check_and_insert_record_into_db (table ++ st.dbPending)
              (rewriteRecord map r)).2
           else table ++ st.dbPending)) ∧
    (process_tsv_file ⟨true, false⟩ [("old-123", "new-456")] noFailOracle []
        [⟨"2024-01-01T00:00:00", "old-123", "item-1", "Movie", "Foo",
          "DirectPlay", "Web", "Chrome", "120"⟩]).outcome =
      Except.ok
        { processed := 1, rewritten := 1, insertedSqlite := 0,
          skippedSqlite := 0,
          changesSummary := [("old-123", ("new-456", 1))],
          tsvOut := [⟨"2024-01-01T00:00:00", "new-456", "item-1", "Movie",
            "Foo", "DirectPlay", "Web", "Chrome", "120"⟩],
          dbPending := [] } ∧
    (process_tsv_file ⟨true, true⟩ [("old-123", "new-456")] noFailOracle []
        [⟨"2024-01-01T00:00:00", "old-123", "item-1", "Movie", "Foo",
          "DirectPlay", "Web", "Chrome", "120"⟩]).outcome =
      Except.ok
        { processed := 1, rewritten := 1, insertedSqlite := 1,
          skippedSqlite := 0,
          changesSummary := [("old-123", ("new-456", 1))],
          tsvOut := [⟨"2024-01-01T00:00:00", "new-456", "item-1", "Movie",
            "Foo", "DirectPlay", "Web", "Chrome", "120"⟩],
          dbPending := [⟨"2024-01-01T00:00:00", "new-456", "item-1", "Movie",
            "Foo", "DirectPlay", "Web", "Chrome", "120"⟩] } ∧
    (process_tsv_file ⟨true, true⟩ [("old-123", "new-456")] noFailOracle []
        [⟨"2024-01-01T00:00:00", "old-123", "item-1", "Movie", "Foo",
          "DirectPlay", "Web", "Chrome", "120"⟩]).finalTable =
      [⟨"2024-01-01T00:00:00", "new-456", "item-1", "Movie", "Foo",
        "DirectPlay", "Web", "Chrome", "120"⟩] := by
  refine ⟨?_, stepPure_tsvOut, ?_, by decide, by decide, by decide⟩
  · intro map r
    unfold rewriteRecord
    cases h : hmLookup map r.user_id <;> simp
  · intro cfg map table st r
    cases hdb : cfg.dbSink
    · rw [if_neg (by simp), (stepPure_db_false cfg map table st r hdb).1]
    · rw [if_pos rfl]
      unfold check_and_insert_record_into_db
      rcases stepPure_db_true cfg map table st r hdb with
        ⟨hp, _, _, hno⟩ | ⟨hp, _, _, hmem⟩
      · rw [hp, if_neg (by simp [recordExists, hno]), List.append_assoc]
      · rw [hp, if_pos (by simp [recordExists, hmem])]

/-- C9: a transport or non-success failure of either user fetch is
absorbed: the failing side contributes an empty identity list, the
corresponding warning is emitted, and the run result is exactly that of
a run with an empty list for that side: the failure never surfaces as
the run's outcome. -/
theorem C9_fetch_errors_absorbed (e1 e2 : String)
    (oldRes newRes : Except String (List JellyfinUser))
    (cfg : SinkConfig) (orc : Oracle) (table records : List TsvRecord) :
    ((mainModel (Except.error e1) newRes cfg orc table records).oldFetchWarning
        = true ∧
      (mainModel (Except.error e1) newRes cfg orc table records).run =
        (mainModel (Except.ok []) newRes cfg orc table records).run) ∧
    ((mainModel oldRes (Except.error e2) cfg orc table records).newFetchWarning
        = true ∧
      (mainModel oldRes (Except.error e2) cfg orc table records).run =
        (mainModel oldRes (Except.ok []) cfg orc table records).run) := by
  exact ⟨⟨rfl, rfl⟩, ⟨rfl, rfl⟩⟩

/-- C10: whenever the streaming loop completes without error, the
rewritten counter equals the sum of the per-old-id counts in the change
summary, and, with the relational sink configured, inserted plus
duplicate-skipped equals processed.  The state after any iteration is the
final state of the loop on the corresponding prefix of the input, so this
covers every iteration. -/
theorem C10_counter_invariants (cfg : SinkConfig)
    (map : List (String × String)) (orc : Oracle)
    (table records : List TsvRecord) (st : RunState)
    (h : runLoop cfg map orc table initState records = Except.ok st) :
    st.rewritten = sumCounts st.changesSummary ∧
    (cfg.dbSink = true →
      st.insertedSqlite + st.skippedSqlite = st.processed) := by
  have hst := runLoop_ok_inv cfg map orc table records initState st h
  subst hst
  constructor
  · exact (loopPure_summary_inv cfg map table records initState
      (by simp [initState]) rfl).2
  · intro hdb
    have h1 := loopPure_counts cfg map table hdb records initState
    have h2 := loopPure_processed cfg map table records initState
    rw [h1, h2]
    simp [initState]

/-- C10 witness: the invariants at a concrete one-record run that both
rewrites and inserts. -/
theorem C10_witness :
    runLoop ⟨true, true⟩ [("b", "z")] noFailOracle [] initState
        [⟨"a", "b", "c", "d", "e", "f", "g", "h", "i"⟩] =
      Except.ok
        { processed := 1, rewritten := 1, insertedSqlite := 1,
          skippedSqlite := 0, changesSummary := [("b", ("z", 1))],
          tsvOut := [⟨"a", "z", "c", "d", "e", "f", "g", "h", "i"⟩],
          dbPending := [⟨"a", "z", "c", "d", "e", "f", "g", "h", "i"⟩] } ∧
    ((1 : Nat) = sumCounts [("b", ("z", 1))] ∧
      ((SinkConfig.mk true true).dbSink = true → (1 : Nat) + 0 = 1)) :=
  ⟨by decide,
   C10_counter_invariants ⟨true, true⟩ [("b", "z")] noFailOracle []
     [⟨"a", "b", "c", "d", "e", "f", "g", "h", "i"⟩]
     { processed := 1, rewritten := 1, insertedSqlite := 1,
       skippedSqlite := 0, changesSummary := [("b", ("z", 1))],
       tsvOut := [⟨"a", "z", "c", "d", "e", "f", "g", "h", "i"⟩],
       dbPending := [⟨"a", "z", "c", "d", "e", "f", "g", "h", "i"⟩] }
     (by decide)⟩

/-! ## Lemmas about the tab-separated codec -/

lemma specialChar_false (c : Char) (h : specialChar c = false) :
    c ≠ '\t' ∧ c ≠ '\n' ∧ c ≠ '\r' ∧ c ≠ '"' := by
  simp [specialChar] at h
  exact ⟨h.1.1.1, h.1.1.2, h.1.2, h.2⟩

lemma cleanField_cons (c : Char) (f : List Char)
    (h : cleanField (c :: f) = true) :
    specialChar c = false ∧ cleanField f = true := by
  unfold cleanField at h ⊢
  rw [List.all_cons, Bool.and_eq_true] at h
  exact ⟨by simpa using h.1, h.2⟩

lemma encodeField_clean (f : List Char) (h : cleanField f = true) :
    encodeField f = f := by
  unfold encodeField
  rw [if_neg]
  intro hq
  unfold needsQuoting at hq
  rw [List.any_eq_true] at hq
  obtain ⟨c, hc, hsp⟩ := hq
  have hcl := List.all_eq_true.mp h c hc
  rw [hsp] at hcl
  simp at hcl

lemma foldl_inUnquoted_clean (g : List Char) :
    ∀ (field : List Char) (row : List (List Char))
      (rows : List (List (List Char))), cleanField g = true →
    List.foldl csvStep
        ⟨CsvMode.inUnquoted, field, row, rows⟩ g =
      ⟨CsvMode.inUnquoted, field ++ g, row, rows⟩ := by
  induction g with
  | nil => intro field row rows _; simp
  | cons c g ih =>
    intro field row rows hg
    obtain ⟨hc, hg'⟩ := cleanField_cons c g hg
    obtain ⟨h1, h2, h3, _⟩ := specialChar_false c hc
    rw [List.foldl_cons]
    have hstep : csvStep ⟨CsvMode.inUnquoted, field, row, rows⟩ c =
        ⟨CsvMode.inUnquoted, field ++ [c], row, rows⟩ := by
      simp [csvStep, h1, h2, h3]
    rw [hstep, ih (field ++ [c]) row rows hg']
    simp

lemma foldl_startField_clean (f : List Char) (hne : f ≠ [])
    (hf : cleanField f = true) (field0 : List Char) (row : List (List Char))
    (rows : List (List (List Char))) :
    List.foldl csvStep ⟨CsvMode.startField, field0, row, rows⟩ f =
      ⟨CsvMode.inUnquoted, f, row, rows⟩ := by
  cases f with
  | nil => cases hne rfl
  | cons c g =>
    obtain ⟨hc, hg⟩ := cleanField_cons c g hf
    obtain ⟨h1, h2, h3, h4⟩ := specialChar_false c hc
    rw [List.foldl_cons]
    have hstep : csvStep ⟨CsvMode.startField, field0, row, rows⟩ c =
        ⟨CsvMode.inUnquoted, [c], row, rows⟩ := by
      simp [csvStep, csvStartField, h1, h2, h3, h4]
    rw [hstep, foldl_inUnquoted_clean g [c] row rows hg]
    simp

lemma foldl_row_clean :
    ∀ (fs : List (List Char)) (f : List Char) (row : List (List Char))
      (rows : List (List (List Char))),
      cleanField f = true → fs.all cleanField = true →
      (fs = [] → (row ≠ [] ∨ f ≠ [])) →
      List.foldl csvStep ⟨CsvMode.startField, [], row, rows⟩
          (joinFields (f :: fs) ++ ['\n']) =
        ⟨CsvMode.startField, [], [], rows ++ [row ++ f :: fs]⟩ := by
  intro fs
  induction fs with
  | nil =>
    intro f row rows hf _ hbase
    show List.foldl csvStep _ (f ++ ['\n']) = _
    cases f with
    | nil =>
      rcases hbase rfl with hrow | hfne
      · have hrow' : row.isEmpty = false := by
          simp [List.isEmpty_iff, hrow]
        simp [csvStep, csvStartField, hrow']
      · cases hfne rfl
    | cons c g =>
      rw [List.foldl_append,
        foldl_startField_clean (c :: g) (by simp) hf [] row rows]
      simp [csvStep]
  | cons f2 fs ih =>
    intro f row rows hf hfs hbase
    have hsplit : joinFields (f :: f2 :: fs) ++ ['\n'] =
        f ++ ('\t' :: (joinFields (f2 :: fs) ++ ['\n'])) := by
      simp [joinFields]
    rw [hsplit]
    rw [List.all_cons, Bool.and_eq_true] at hfs
    have htab : ∀ (field0 : List Char),
        List.foldl csvStep ⟨CsvMode.startField, [], row, rows⟩
            (f ++ ('\t' :: (joinFields (f2 :: fs) ++ ['\n']))) =
          List.foldl csvStep ⟨CsvMode.startField, [], row ++ [f], rows⟩
            (joinFields (f2 :: fs) ++ ['\n']) := by
      intro _
      cases f with
      | nil =>
        rw [List.nil_append, List.foldl_cons]
        have : csvStep ⟨CsvMode.startField, [], row, rows⟩ '\t' =
            ⟨CsvMode.startField, [], row ++ [[]], rows⟩ := by
          simp [csvStep, csvStartField]
        rw [this]
      | cons c g =>
        rw [List.foldl_append, foldl_startField_clean (c :: g) (by simp) hf
          [] row rows, List.foldl_cons]
        have : csvStep ⟨CsvMode.inUnquoted, c :: g, row, rows⟩ '\t' =
            ⟨CsvMode.startField, [], row ++ [c :: g], rows⟩ := by
          simp [csvStep]
        rw [this]
    rw [htab []]
    rw [ih f2 (row ++ [f]) rows hfs.1 hfs.2 (fun _ => Or.inl (by simp))]
    simp

lemma encodeRow_clean (r : TsvRecord) (h : cleanRecord r = true) :
    encodeRow r = joinFields (recordFields r) ++ ['\n'] := by
  unfold encodeRow
  have hmap : (recordFields r).map encodeField = (recordFields r).map id :=
    List.map_congr_left (fun f hf =>
      encodeField_clean f (List.all_eq_true.mp h f hf))
  rw [hmap, List.map_id]

lemma encodeFile_cons (r : TsvRecord) (t : List TsvRecord) :
    encodeFile (r :: t) = encodeRow r ++ encodeFile t := by
  simp [encodeFile]

lemma foldl_file_clean :
    ∀ (rs : List TsvRecord) (rows : List (List (List Char))),
      rs.all cleanRecord = true →
      List.foldl csvStep ⟨CsvMode.startField, [], [], rows⟩ (encodeFile rs) =
        ⟨CsvMode.startField, [], [], rows ++ rs.map recordFields⟩ := by
  intro rs
  induction rs with
  | nil => intro rows _; simp [encodeFile]
  | cons r t ih =>
    intro rows hall
    rw [List.all_cons, Bool.and_eq_true] at hall
    rw [encodeFile_cons, List.foldl_append, encodeRow_clean r hall.1]
    have hfields : cleanField r.date_created.toList = true ∧
        ([r.user_id.toList, r.item_id.toList, r.item_type.toList,
          r.item_name.toList, r.playback_method.toList, r.client_name.toList,
          r.device_name.toList, r.play_duration.toList].all cleanField)
          = true := by
      have hcr := hall.1
      unfold cleanRecord recordFields at hcr
      rw [List.all_cons, Bool.and_eq_true] at hcr
      exact hcr
    rw [show recordFields r = r.date_created.toList ::
        [r.user_id.toList, r.item_id.toList, r.item_type.toList,
         r.item_name.toList, r.playback_method.toList, r.client_name.toList,
         r.device_name.toList, r.play_duration.toList] from rfl]
    rw [foldl_row_clean _ _ _ _ hfields.1 hfields.2 (fun h => nomatch h)]
    rw [ih _ hall.2]
    simp
    rfl

lemma parseRows_encodeFile (rs : List TsvRecord)
    (h : rs.all cleanRecord = true) :
    parseRows (encodeFile rs) = rs.map recordFields := by
  unfold parseRows initCsv
  rw [foldl_file_clean rs [] h]
  simp [csvFinish]

lemma recordOfFields_recordFields (r : TsvRecord) :
    recordOfFields (recordFields r) = some r := rfl

lemma decodeRows_map_recordFields (rs : List TsvRecord) :
    decodeRows (rs.map recordFields) = some rs := by
  induction rs with
  | nil => rfl
  | cons r t ih =>
    rw [List.map_cons]
    simp only [decodeRows, recordOfFields_recordFields, ih]

/-- C8: as stated (byte-exact round-trip for every input), the claim
fails: the csv writer always terminates a record with a newline, so a
file whose last row lacks a trailing newline decodes fine but re-encodes
to different bytes.  (Quoting and CRLF terminators are normalised the
same way.) -/
theorem C8_counterexample :
    decodeFile ("a\tb\tc\td\te\tf\tg\th\ti".toList) =
      some [⟨"a", "b", "c", "d", "e", "f", "g", "h", "i"⟩] ∧
    encodeFile [⟨"a", "b", "c", "d", "e", "f", "g", "h", "i"⟩] ≠
      "a\tb\tc\td\te\tf\tg\th\ti".toList := by
  refine ⟨by decide, by decide⟩

/-- C8 (amended): for every record sequence whose fields contain no tab,
quote, carriage return or newline character, the encoded file decodes
back to exactly that sequence, so decoding such a file and re-encoding it
reproduces its byte content exactly.  In general the codec normalises
missing trailing newlines, CRLF terminators and quoting. -/
theorem C8_clean_roundtrip (s : List Char) (rs : List TsvRecord)
    (hclean : rs.all cleanRecord = true) (hs : encodeFile rs = s) :
    decodeFile s = some rs ∧
    (decodeFile s).map encodeFile = some s := by
  subst hs
  have h1 : decodeFile (encodeFile rs) = some rs := by
    unfold decodeFile
    rw [parseRows_encodeFile rs hclean, decodeRows_map_recordFields]
  exact ⟨h1, by rw [h1, Option.map_some']⟩

/-- C8 witness: the clean round trip at a concrete one-record file. -/
theorem C8_witness :
    (([⟨"a", "b", "c", "d", "e", "f", "g", "h", "i"⟩] : List TsvRecord).all
        cleanRecord = true) ∧
    decodeFile (encodeFile [⟨"a", "b", "c", "d", "e", "f", "g", "h", "i"⟩]) =
      some [⟨"a", "b", "c", "d", "e", "f", "g", "h", "i"⟩] :=
  ⟨by decide,
   (C8_clean_roundtrip
     (encodeFile [⟨"a", "b", "c", "d", "e", "f", "g", "h", "i"⟩])
     [⟨"a", "b", "c", "d", "e", "f", "g", "h", "i"⟩] (by decide) rfl).1⟩

end JellyfinMigration
